import Mathlib

/-!
Verification of the pysnyk client library (`snyk/client.py`, `snyk/managers.py`)
against its natural-language specification.

Python strings are modelled as `String` (or `List Char` where character-level
parsing matters), Python dicts either as association lists (when insertion
order or enumeration matters) or as lookup functions (when only key lookup
matters), and raised exceptions as explicit error constructors.  Loops carry
an explicit fuel argument; exhausting the fuel models non-termination of the
source loop.
-/

namespace Pysnyk

/-! ## Pagination walker (`SnykClient.get_rest_pages`)

A REST page body, as far as `get_rest_pages` inspects it: a `data` field
(absent modelled as `none`), and a `links` section with optional `self` and
`next` entries.  An absent `links` section is modelled as both entries being
`none`, which is observationally equivalent for this code: every access goes
through `page_data.get("links", {}).get(...)` or is guarded by the truthiness
of `links.next`. -/
structure Page (α : Type) where
  data : Option (List α)
  self : Option String
  next : Option String
deriving DecidableEq

/-- Python truthiness of `page_data.get("links", {}).get("next")`: the entry
must be present and (being a string URL) non-empty. -/
def truthyNext {α : Type} (p : Page α) : Option String :=
  match p.next with
  | none => none
  | some u => if u = "" then none else some u

/-- Outcome of `get_rest_pages`: the unguarded `page_data["data"]` lookup on
the first page raised `KeyError`; the `while` loop did not terminate within
the given fuel; or the merged record list was returned. -/
inductive PagesOutcome (α : Type) where
  | keyError : PagesOutcome α
  | outOfFuel : PagesOutcome α
  | done (records : List α) : PagesOutcome α
deriving DecidableEq

/-- The `while page_data.get("links", {}).get("next"):` loop of
`get_rest_pages`, with `acc` the accumulator `return_data`.  One unit of fuel
is spent per iteration; `none` means the loop was still running when the fuel
ran out.  The branches mirror the source: stop when `next` is not truthy;
stop when `self` is present and equal to `next` (cursor loop guard); fetch
the next url; stop when the new page has no `data` key or an empty `data`
list; otherwise extend the accumulator and continue. -/
def walkLoop {α : Type} (fetch : String → Page α) : Nat → Page α → List α → Option (List α)
  | 0, _, _ => none
  | n + 1, p, acc =>
    match truthyNext p with
    | none => some acc
    | some u =>
      if p.self = some u then some acc
      else
        match (fetch u).data with
        | none => some acc
        | some d => if d.isEmpty then some acc else walkLoop fetch n (fetch u) (acc ++ d)

/-- Embedding of `SnykClient.get_rest_pages`: fetch the first page, take its `data` list
(an unguarded dict lookup), then run the walk loop. -/
def getRestPages {α : Type} (fetch : String → Page α) (path : String) (fuel : Nat) :
    PagesOutcome α :=
  match (fetch path).data with
  | none => .keyError
  | some d =>
    match walkLoop fetch fuel (fetch path) d with
    | none => .outOfFuel
    | some r => .done r

theorem truthyNext_of_next {α : Type} {p : Page α} {u : String} (hn : p.next = some u)
    (hu : u ≠ "") : truthyNext p = some u := by
  simp [truthyNext, hn, hu]

theorem walkLoop_stop_noNext {α : Type} (fetch : String → Page α) (p : Page α)
    (n : Nat) (acc : List α) (ht : truthyNext p = none) :
    walkLoop fetch (n + 1) p acc = some acc := by
  unfold walkLoop
  rw [ht]

theorem walkLoop_stop_selfEq {α : Type} (fetch : String → Page α) (p : Page α) (u : String)
    (n : Nat) (acc : List α) (ht : truthyNext p = some u) (hs : p.self = some u) :
    walkLoop fetch (n + 1) p acc = some acc := by
  unfold walkLoop
  rw [ht]
  simp [hs]

theorem walkLoop_stop_noData {α : Type} (fetch : String → Page α) (p : Page α) (u : String)
    (n : Nat) (acc : List α) (ht : truthyNext p = some u) (hs : p.self ≠ some u)
    (hd : (fetch u).data = none) :
    walkLoop fetch (n + 1) p acc = some acc := by
  unfold walkLoop
  rw [ht]
  simp [hs, hd]

theorem walkLoop_stop_emptyData {α : Type} (fetch : String → Page α) (p : Page α) (u : String)
    (n : Nat) (acc : List α) (ht : truthyNext p = some u) (hs : p.self ≠ some u)
    (hd : (fetch u).data = some []) :
    walkLoop fetch (n + 1) p acc = some acc := by
  unfold walkLoop
  rw [ht]
  simp [hs, hd]

theorem walkLoop_step_go {α : Type} (fetch : String → Page α) (p : Page α) (u : String)
    (d : List α) (n : Nat) (acc : List α) (ht : truthyNext p = some u)
    (hs : p.self ≠ some u) (hd : (fetch u).data = some d) (hne : d ≠ []) :
    walkLoop fetch (n + 1) p acc = walkLoop fetch n (fetch u) (acc ++ d) := by
  conv_lhs => unfold walkLoop
  rw [ht]
  have hie : d.isEmpty = false := by
    cases d with
    | nil => exact absurd rfl hne
    | cons a l => rfl
  simp [hs, hd, hie]

theorem getRestPages_of_walkLoop {α : Type} {fetch : String → Page α} {path : String}
    {fuel : Nat} {d r : List α} (hd : (fetch path).data = some d)
    (hw : walkLoop fetch fuel (fetch path) d = some r) :
    getRestPages fetch path fuel = .done r := by
  simp [getRestPages, hd, hw]

/-- C1: when the first page's `links.next` equals its `links.self`, the walk
stops after the first page and returns exactly the first page's `data` list. -/
theorem getRestPages_self_next_stops {α : Type} (fetch : String → Page α) (path : String)
    (d : List α) (n : Nat) (hd : (fetch path).data = some d)
    (hns : (fetch path).next = (fetch path).self) :
    getRestPages fetch path (n + 1) = .done d := by
  refine getRestPages_of_walkLoop hd ?_
  rcases h : (fetch path).next with _ | u
  · exact walkLoop_stop_noNext fetch (fetch path) n d (by simp [truthyNext, h])
  · by_cases hu : u = ""
    · exact walkLoop_stop_noNext fetch (fetch path) n d (by simp [truthyNext, h, hu])
    · exact walkLoop_stop_selfEq fetch (fetch path) u n d (truthyNext_of_next h hu)
        (by rw [← hns, h])

/-- Witness for `getRestPages_self_next_stops` at a concrete one-page server. -/
theorem getRestPages_self_next_stops_witness :
    getRestPages (fun _ => ({ data := some [7, 8], self := some "p", next := some "p" } : Page Int))
      "p" 4 = .done [7, 8] :=
  getRestPages_self_next_stops _ "p" [7, 8] 3 rfl rfl

/-- A concrete three-page server: `"p"` links to `"u2"`, `"u2"` to `"u3"`,
`"u3"` is the last page. -/
def chainFetch : String → Page Int := fun u =>
  if u = "u2" then { data := some [3, 4], self := some "u2", next := some "u3" }
  else if u = "u3" then { data := some [5], self := some "u3", next := none }
  else { data := some [1, 2], self := some "p", next := some "u2" }

/-- C2: a three-page chain (page 1 links to page 2, page 2 to page 3, page 3
has no `next` link), every page carrying a non-empty `data` list, is merged
into the concatenation of the three `data` lists in page order. -/
theorem getRestPages_three_page_chain {α : Type} (fetch : String → Page α)
    (path u2 u3 : String) (d1 d2 d3 : List α) (n : Nat)
    (hd1 : (fetch path).data = some d1) (hne1 : d1 ≠ [])
    (hn1 : (fetch path).next = some u2) (hu2 : u2 ≠ "")
    (hs1 : (fetch path).self ≠ some u2)
    (hd2 : (fetch u2).data = some d2) (hne2 : d2 ≠ [])
    (hn2 : (fetch u2).next = some u3) (hu3 : u3 ≠ "")
    (hs2 : (fetch u2).self ≠ some u3)
    (hd3 : (fetch u3).data = some d3) (hne3 : d3 ≠ [])
    (hn3 : (fetch u3).next = none) :
    getRestPages fetch path (n + 3) = .done (d1 ++ d2 ++ d3) := by
  refine getRestPages_of_walkLoop hd1 ?_
  show walkLoop fetch (n + 2 + 1) (fetch path) d1 = some (d1 ++ d2 ++ d3)
  rw [walkLoop_step_go fetch (fetch path) u2 d2 (n + 2) d1 (truthyNext_of_next hn1 hu2)
    hs1 hd2 hne2]
  show walkLoop fetch (n + 1 + 1) (fetch u2) (d1 ++ d2) = some (d1 ++ d2 ++ d3)
  rw [walkLoop_step_go fetch (fetch u2) u3 d3 (n + 1) (d1 ++ d2) (truthyNext_of_next hn2 hu3)
    hs2 hd3 hne3]
  exact walkLoop_stop_noNext fetch (fetch u3) n (d1 ++ d2 ++ d3) (by simp [truthyNext, hn3])

/-- Witness for `getRestPages_three_page_chain` at a concrete three-page server. -/
theorem getRestPages_three_page_chain_witness :
    getRestPages chainFetch "p" 3 = .done [1, 2, 3, 4, 5] :=
  getRestPages_three_page_chain chainFetch "p" "u2" "u3" [1, 2] [3, 4] [5] 0
    rfl (by decide) rfl (by decide) (by decide) rfl (by decide) rfl (by decide) (by decide)
    rfl (by decide) rfl

/-- C10: a first page without a `data` key raises (the unguarded
`page_data["data"]` lookup), while a later page without a `data` key merely
ends the walk, returning the records accumulated so far. -/
theorem getRestPages_missing_data {α : Type} (fetch : String → Page α) (path u2 : String)
    (n : Nat) :
    ((fetch path).data = none → getRestPages fetch path n = .keyError) ∧
    (∀ d1 : List α, (fetch path).data = some d1 → (fetch path).next = some u2 → u2 ≠ "" →
      (fetch path).self ≠ some u2 → (fetch u2).data = none →
      getRestPages fetch path (n + 1) = .done d1) := by
  constructor
  · intro h
    simp [getRestPages, h]
  · intro d1 hd1 hn1 hu2 hs1 hd2
    exact getRestPages_of_walkLoop hd1
      (walkLoop_stop_noData fetch (fetch path) u2 n d1 (truthyNext_of_next hn1 hu2) hs1 hd2)

/-- Witness for `getRestPages_missing_data`: both conjuncts at concrete servers. -/
theorem getRestPages_missing_data_witness :
    getRestPages (fun _ => ({ data := none, self := none, next := none } : Page Int)) "p" 2
        = .keyError ∧
      getRestPages
        (fun u =>
          if u = "u2" then ({ data := none, self := some "u2", next := none } : Page Int)
          else { data := some [9], self := some "p", next := some "u2" })
        "p" 2 = .done [9] :=
  ⟨(getRestPages_missing_data _ "p" "u2" 2).1 rfl,
    (getRestPages_missing_data _ "p" "u2" 1).2 [9] rfl rfl (by decide) (by decide) rfl⟩

/-! ## Termination and duplication behaviour of the walk (C9)

`get_rest_pages` guards only against `next == self`; a cursor cycle through
two distinct URLs (A → B → A → …) is not detected, and the `while` loop never
terminates on such a server.  `loopsForever` states that no amount of fuel
completes the walk. -/

/-- The walk never terminates: for every fuel bound, the loop is still running. -/
def loopsForever {α : Type} (fetch : String → Page α) (path : String) : Prop :=
  ∀ fuel : Nat, getRestPages fetch path fuel = .outOfFuel

/-- A server with a two-URL cursor cycle: page `"a"` links to `"b"` and page
`"b"` links back to `"a"`; both carry non-empty data and honest `self` links. -/
def cycleFetch : String → Page Int := fun u =>
  if u = "b" then { data := some [2], self := some "b", next := some "a" }
  else { data := some [1], self := some "a", next := some "b" }

theorem cycleFetch_walkLoop_none (fuel : Nat) :
    ∀ acc : List Int, walkLoop cycleFetch fuel (cycleFetch "a") acc = none ∧
      walkLoop cycleFetch fuel (cycleFetch "b") acc = none := by
  induction fuel with
  | zero => intro acc; exact ⟨rfl, rfl⟩
  | succ k ih =>
    intro acc
    constructor
    · rw [walkLoop_step_go cycleFetch (cycleFetch "a") "b" [2] k acc (by decide) (by decide)
        (by decide) (by decide)]
      exact (ih (acc ++ [2])).2
    · rw [walkLoop_step_go cycleFetch (cycleFetch "b") "a" [1] k acc (by decide) (by decide)
        (by decide) (by decide)]
      exact (ih (acc ++ [1])).1

theorem getRestPages_outOfFuel_of {α : Type} {fetch : String → Page α} {path : String}
    {fuel : Nat} {d : List α} (hd : (fetch path).data = some d)
    (hw : walkLoop fetch fuel (fetch path) d = none) :
    getRestPages fetch path fuel = .outOfFuel := by
  simp [getRestPages, hd, hw]

/-- Counterexample to C9: on the two-URL cursor cycle the walk does not
terminate (it is `outOfFuel` for every fuel bound), so `get_rest_pages` does
not always terminate. -/
theorem getRestPages_cycle_loops_forever : loopsForever cycleFetch "a" := by
  intro fuel
  exact getRestPages_outOfFuel_of rfl (cycleFetch_walkLoop_none fuel [1]).1

/-- The walk instrumented to record, instead of the merged records, the
sequence of cursor URLs whose pages contribute data: exactly the `next` URLs
the loop follows into its `return_data.extend(...)` branch.  Same recursion
skeleton and stopping conditions as `walkLoop`. -/
def walkTrace {α : Type} (fetch : String → Page α) : Nat → Page α → Option (List String)
  | 0, _ => none
  | n + 1, p =>
    match truthyNext p with
    | none => some []
    | some u =>
      if p.self = some u then some []
      else
        match (fetch u).data with
        | none => some []
        | some d => if d.isEmpty then some [] else (walkTrace fetch n (fetch u)).map (u :: ·)

/-- The loop body either stops at the current page or follows a truthy,
non-self `next` URL onto a page with a non-empty `data` list. -/
def stopsNow {α : Type} (fetch : String → Page α) (p : Page α) : Prop :=
  truthyNext p = none ∨ ∃ u, truthyNext p = some u ∧
    (p.self = some u ∨ (fetch u).data = none ∨ (fetch u).data = some [])

theorem walkLoop_of_stopsNow {α : Type} {fetch : String → Page α} {p : Page α}
    (n : Nat) (acc : List α) (h : stopsNow fetch p) :
    walkLoop fetch (n + 1) p acc = some acc := by
  rcases h with h | ⟨u, ht, h | h | h⟩
  · exact walkLoop_stop_noNext fetch p n acc h
  · exact walkLoop_stop_selfEq fetch p u n acc ht h
  · by_cases hs : p.self = some u
    · exact walkLoop_stop_selfEq fetch p u n acc ht hs
    · exact walkLoop_stop_noData fetch p u n acc ht hs h
  · by_cases hs : p.self = some u
    · exact walkLoop_stop_selfEq fetch p u n acc ht hs
    · exact walkLoop_stop_emptyData fetch p u n acc ht hs h

theorem walkTrace_of_stopsNow {α : Type} {fetch : String → Page α} {p : Page α}
    (n : Nat) (h : stopsNow fetch p) :
    walkTrace fetch (n + 1) p = some [] := by
  rcases h with h | ⟨u, ht, h | h | h⟩
  · unfold walkTrace; rw [h]
  · unfold walkTrace; rw [ht]; simp [h]
  · unfold walkTrace; rw [ht]
    by_cases hs : p.self = some u
    · simp [hs]
    · simp [hs, h]
  · unfold walkTrace; rw [ht]
    by_cases hs : p.self = some u
    · simp [hs]
    · simp [hs, h]

theorem walkTrace_go {α : Type} {fetch : String → Page α} {p : Page α} {u : String}
    {d : List α} (n : Nat) (ht : truthyNext p = some u) (hs : p.self ≠ some u)
    (hd : (fetch u).data = some d) (hne : d ≠ []) :
    walkTrace fetch (n + 1) p = (walkTrace fetch n (fetch u)).map (u :: ·) := by
  conv_lhs => unfold walkTrace
  rw [ht]
  have hie : d.isEmpty = false := by
    cases d with
    | nil => exact absurd rfl hne
    | cons a l => rfl
  simp [hs, hd, hie]

theorem stopsNow_or_go {α : Type} (fetch : String → Page α) (p : Page α) :
    stopsNow fetch p ∨ ∃ u d, truthyNext p = some u ∧ p.self ≠ some u ∧
      (fetch u).data = some d ∧ d ≠ [] := by
  cases ht : truthyNext p with
  | none => exact Or.inl (Or.inl ht)
  | some u =>
    by_cases hs : p.self = some u
    · exact Or.inl (Or.inr ⟨u, ht, Or.inl hs⟩)
    · cases hd : (fetch u).data with
      | none => exact Or.inl (Or.inr ⟨u, ht, Or.inr (Or.inl hd)⟩)
      | some d =>
        cases d with
        | nil => exact Or.inl (Or.inr ⟨u, ht, Or.inr (Or.inr hd)⟩)
        | cons a l => exact Or.inr ⟨u, a :: l, rfl, hs, hd, by simp⟩

/-- A trace obtained with some fuel is obtained unchanged with any more fuel. -/
theorem walkTrace_mono {α : Type} {fetch : String → Page α} :
    ∀ {n : Nat} {p : Page α} {t : List String} {m : Nat},
      walkTrace fetch n p = some t → n ≤ m → walkTrace fetch m p = some t := by
  intro n
  induction n with
  | zero => intro p t m h _; exact absurd h (by simp [walkTrace])
  | succ k ih =>
    intro p t m h hm
    obtain ⟨m', rfl⟩ : ∃ m', m = m' + 1 := ⟨m - 1, by omega⟩
    rcases stopsNow_or_go fetch p with hstop | ⟨u, d, h1, h2, h3, h4⟩
    · rw [walkTrace_of_stopsNow k hstop] at h
      rw [walkTrace_of_stopsNow m' hstop]
      exact h
    · rw [walkTrace_go k h1 h2 h3 h4] at h
      rw [walkTrace_go m' h1 h2 h3 h4]
      cases hwt : walkTrace fetch k (fetch u) with
      | none => rw [hwt] at h; exact absurd h (by simp)
      | some t' =>
        rw [hwt] at h
        rw [ih hwt (by omega)]
        exact h

/-- Every position in a trace starts a trace of its own: the walk from the
page at URL `t[i]` produces the remainder of the trace. -/
theorem walkTrace_suffix {α : Type} {fetch : String → Page α} :
    ∀ {n : Nat} {p : Page α} {t : List String},
      walkTrace fetch n p = some t → ∀ i : Fin t.length,
        ∃ m, walkTrace fetch m (fetch (t.get i)) = some (t.drop (i.val + 1)) := by
  intro n
  induction n with
  | zero => intro p t h; exact absurd h (by simp [walkTrace])
  | succ k ih =>
    intro p t h i
    rcases stopsNow_or_go fetch p with hstop | ⟨u, d, h1, h2, h3, h4⟩
    · rw [walkTrace_of_stopsNow k hstop] at h
      obtain rfl : ([] : List String) = t := by injection h
      exact absurd i.isLt (by simp)
    · rw [walkTrace_go k h1 h2 h3 h4] at h
      cases hwt : walkTrace fetch k (fetch u) with
      | none => rw [hwt] at h; exact absurd h (by simp)
      | some t' =>
        rw [hwt] at h
        obtain rfl : u :: t' = t := by injection h
        cases i using Fin.cases with
        | zero => exact ⟨k, by simpa using hwt⟩
        | succ j =>
          obtain ⟨m, hm⟩ := ih hwt j
          exact ⟨m, by simpa using hm⟩

/-- A trace of the walk never repeats a cursor URL: two equal entries would
start identical continuations of different lengths. -/
theorem walkTrace_nodup {α : Type} {fetch : String → Page α} {n : Nat} {p : Page α}
    {t : List String} (h : walkTrace fetch n p = some t) : t.Nodup := by
  rw [List.nodup_iff_injective_get]
  intro i j hij
  obtain ⟨mi, hmi⟩ := walkTrace_suffix h i
  obtain ⟨mj, hmj⟩ := walkTrace_suffix h j
  rw [hij] at hmi
  have hi' := walkTrace_mono hmi (Nat.le_max_left mi mj)
  have hj' := walkTrace_mono hmj (Nat.le_max_right mi mj)
  have heq : t.drop (i.val + 1) = t.drop (j.val + 1) := by
    have := hi'.symm.trans hj'
    injection this
  have hlen : t.length - (i.val + 1) = t.length - (j.val + 1) := by
    rw [← List.length_drop, ← List.length_drop, heq]
  have hi := i.isLt
  have hj := j.isLt
  exact Fin.ext (by omega)

/-- The merged records are the first page's data followed by the data of each
traced page, in trace order: each followed page contributes exactly once. -/
theorem walkLoop_eq_trace_flatten {α : Type} {fetch : String → Page α} :
    ∀ {n : Nat} {p : Page α} {acc r : List α} {t : List String},
      walkLoop fetch n p acc = some r → walkTrace fetch n p = some t →
      r = acc ++ (t.map fun u => ((fetch u).data).getD []).flatten := by
  intro n
  induction n with
  | zero => intro p acc r t h _; exact absurd h (by simp [walkLoop])
  | succ k ih =>
    intro p acc r t hl htr
    rcases stopsNow_or_go fetch p with hstop | ⟨u, d, h1, h2, h3, h4⟩
    · rw [walkLoop_of_stopsNow k acc hstop] at hl
      rw [walkTrace_of_stopsNow k hstop] at htr
      obtain rfl : acc = r := by injection hl
      obtain rfl : ([] : List String) = t := by injection htr
      simp
    · rw [walkLoop_step_go fetch p u d k acc h1 h2 h3 h4] at hl
      rw [walkTrace_go k h1 h2 h3 h4] at htr
      cases hwt : walkTrace fetch k (fetch u) with
      | none => rw [hwt] at htr; exact absurd htr (by simp)
      | some t' =>
        rw [hwt] at htr
        obtain rfl : u :: t' = t := by injection htr
        have := ih hl hwt
        rw [this]
        simp [h3, List.append_assoc]

/-- C9 (amended): whenever the walk completes, the cursor URLs it followed are
pairwise distinct — no page's data is merged twice — and the result is the
first page's data followed by each followed page's data exactly once.  (The
unamended claim's "always terminates" part fails: see
`getRestPages_cycle_loops_forever`.) -/
theorem getRestPages_no_duplicate_pages {α : Type} (fetch : String → Page α) (path : String)
    (fuel : Nat) (r : List α) (t : List String)
    (hr : getRestPages fetch path fuel = .done r)
    (ht : walkTrace fetch fuel (fetch path) = some t) :
    t.Nodup ∧ ∃ d0, (fetch path).data = some d0 ∧
      r = d0 ++ (t.map fun u => ((fetch u).data).getD []).flatten := by
  refine ⟨walkTrace_nodup ht, ?_⟩
  unfold getRestPages at hr
  cases hd : (fetch path).data with
  | none => rw [hd] at hr; exact absurd hr (by simp)
  | some d0 =>
    simp only [hd] at hr
    cases hw : walkLoop fetch fuel (fetch path) d0 with
    | none => simp [hw] at hr
    | some r' =>
      simp only [hw] at hr
      obtain rfl : r' = r := by injection hr
      exact ⟨d0, rfl, walkLoop_eq_trace_flatten hw ht⟩

/-- Witness for `getRestPages_no_duplicate_pages` on the concrete three-page
chain server. -/
theorem getRestPages_no_duplicate_pages_witness :
    (["u2", "u3"] : List String).Nodup ∧ ∃ d0, (chainFetch "p").data = some d0 ∧
      [1, 2, 3, 4, 5] =
        d0 ++ ((["u2", "u3"] : List String).map fun u => ((chainFetch u).data).getD []).flatten :=
  getRestPages_no_duplicate_pages chainFetch "p" 3 [1, 2, 3, 4, 5] ["u2", "u3"] rfl rfl

/-! ## Transport retry behaviour (`SnykClient.request` / `SnykClient.get`)

An HTTP response carries only what `request` inspects: the status code.
`requests.Response.__bool__` is `self.ok`, i.e. `status_code < 400`, so
`not resp` is true for every missing response AND every response with a 4xx
or 5xx status.  A missing (`None`/falsy object) response is `none`. -/
structure HttpResp where
  status : Nat
deriving DecidableEq

/-- The raising condition of `request`:
`if not resp or resp.status_code >= requests.codes.server_error` with
`requests.codes.server_error = 500` and `not resp` meaning `status >= 400`. -/
def requestRaises (resp : Option HttpResp) : Bool :=
  match resp with
  | none => true
  | some r => 400 ≤ r.status || 500 ≤ r.status

inductive ReqError where
  | snykHTTPError (resp : Option HttpResp)
deriving DecidableEq

/-- Embedding of `SnykClient.request` at a given attempt index: raise `SnykHTTPError`
when the raising condition holds, otherwise return the response. -/
def request (transport : Nat → Option HttpResp) (attempt : Nat) : Except ReqError HttpResp :=
  match transport attempt with
  | none => .error (.snykHTTPError none)
  | some r =>
    if 400 ≤ r.status || 500 ≤ r.status then .error (.snykHTTPError (some r))
    else .ok r

/-- Embedding of `retry.api.retry_call` with `tries` total attempts: return the first
successful call, re-raising the last error once the attempts are exhausted.
Also counts the attempts actually made.  The client never calls it with
`tries = 0`. -/
def retryCall (transport : Nat → Option HttpResp) : Nat → Nat → Except ReqError HttpResp × Nat
  | 0, _ => (.error (.snykHTTPError none), 0)
  | 1, attempt => (request transport attempt, 1)
  | t + 2, attempt =>
    match request transport attempt with
    | .ok r => (.ok r, 1)
    | .error _ =>
      let rec_ := retryCall transport (t + 1) (attempt + 1)
      (rec_.1, rec_.2 + 1)

/-- Outcome of `SnykClient.get` as far as status handling goes: either the
response, or a raised `SnykHTTPError` carrying the response (or `none` for a
missing response). -/
inductive GetOutcome where
  | success (r : HttpResp)
  | snykHTTPError (resp : Option HttpResp)
deriving DecidableEq

/-- The retry-and-status-check skeleton shared by `get` (and `post`, `put`,
`patch`, `delete`): run `request` under `retry_call`, then raise on a
non-`ok` response.  Returns the outcome and the number of attempts made. -/
def getStatus (transport : Nat → Option HttpResp) (tries : Nat) : GetOutcome × Nat :=
  match retryCall transport tries 0 with
  | (.ok r, c) => if r.status < 400 then (.success r, c) else (.snykHTTPError (some r), c)
  | (.error (.snykHTTPError resp), c) => (.snykHTTPError resp, c)

/-- Counterexample to C3: with `tries = 3`, a constant 404 transport is
attempted 3 times, not once — `not resp` is `status >= 400`, so a 4xx
response is falsy and triggers the retry policy like a 5xx. -/
theorem get_404_is_retried :
    getStatus (fun _ => some { status := 404 }) 3
      = (.snykHTTPError (some { status := 404 }), 3) ∧ (3 : Nat) ≠ 1 := by
  constructor
  · rfl
  · decide

theorem retryCall_all_fail (transport : Nat → Option HttpResp)
    (hfail : ∀ a, requestRaises (transport a) = true) :
    ∀ (tries attempt : Nat), 1 ≤ tries →
      retryCall transport tries attempt =
        (.error (.snykHTTPError (transport (attempt + tries - 1))), tries) := by
  intro tries
  induction tries with
  | zero => intro attempt h; omega
  | succ t ih =>
    intro attempt _
    have hreq : request transport attempt =
        .error (.snykHTTPError (transport attempt)) := by
      have := hfail attempt
      unfold request
      cases h : transport attempt with
      | none => rfl
      | some r =>
        rw [h] at this
        simp only [requestRaises] at this
        simp [this]
    cases t with
    | zero =>
      show (request transport attempt, 1) = _
      rw [hreq]
      simp
    | succ t' =>
      show (match request transport attempt with
        | .ok r => ((.ok r : Except ReqError HttpResp), 1)
        | .error _ =>
          let rec_ := retryCall transport (t' + 1) (attempt + 1)
          (rec_.1, rec_.2 + 1)) = _
      rw [hreq]
      rw [ih (attempt + 1) (by omega)]
      have : attempt + 1 + (t' + 1) - 1 = attempt + (t' + 1 + 1) - 1 := by omega
      rw [this]

/-- C3 (amended): a 4xx response is falsy (`requests` truthiness is `ok`), so
it triggers the retry policy exactly like a missing response or a 5xx; a
persistently failing transport is attempted exactly `tries` times and then
raises `SnykHTTPError` carrying the last response, while a response with
status < 400 succeeds on the first attempt. -/
theorem get_retry_policy (transport : Nat → Option HttpResp) (tries : Nat)
    (htries : 1 ≤ tries) :
    ((∀ a, requestRaises (transport a) = true) →
      getStatus transport tries = (.snykHTTPError (transport (tries - 1)), tries)) ∧
    (∀ r, transport 0 = some r → r.status < 400 →
      (getStatus transport tries).1 = .success r ∧ (getStatus transport tries).2 = 1) := by
  constructor
  · intro hfail
    unfold getStatus
    rw [retryCall_all_fail transport hfail tries 0 htries]
    simp
  · intro r h0 hok
    have hreq : request transport 0 = .ok r := by
      unfold request
      have h400 : ¬ 400 ≤ r.status := by omega
      have h500 : ¬ 500 ≤ r.status := by omega
      simp [h0, h400, h500]
    have hret : retryCall transport tries 0 = (.ok r, 1) := by
      match tries, htries with
      | 1, _ => show (request transport 0, 1) = _; rw [hreq]
      | t + 2, _ =>
        show (match request transport 0 with
          | .ok r => ((.ok r : Except ReqError HttpResp), 1)
          | .error _ =>
            let rec_ := retryCall transport (t + 1) (0 + 1)
            (rec_.1, rec_.2 + 1)) = _
        rw [hreq]
    unfold getStatus
    rw [hret]
    simp [hok]

/-- Witness for `get_retry_policy`: a transport that always answers 503 is
attempted exactly twice with `tries = 2`; a transport answering 200 succeeds
in one attempt. -/
theorem get_retry_policy_witness :
    getStatus (fun _ => some { status := 503 }) 2
        = (.snykHTTPError (some { status := 503 }), 2) ∧
      (getStatus (fun _ => some { status := 200 }) 2).1 = .success { status := 200 } ∧
      (getStatus (fun _ => some { status := 200 }) 2).2 = 1 :=
  ⟨(get_retry_policy (fun _ => some { status := 503 }) 2 (by decide)).1 (fun a => rfl),
    (get_retry_policy (fun _ => some { status := 200 }) 2 (by decide)).2
      { status := 200 } rfl (by decide)⟩

/-! ## Request headers (`SnykClient.__init__` / `post` / `put` / `patch`)

Header dicts are only ever read by key, so they are modelled as lookup
functions; `dictSet` is `d[k] = v` and `dictMerge a b` is `{**a, **b}`. -/
abbrev PyDict := String → Option String

def emptyDict : PyDict := fun _ => none

def dictSet (d : PyDict) (k v : String) : PyDict :=
  fun k' => if k' = k then some v else d k'

def dictMerge (a b : PyDict) : PyDict :=
  fun k => match b k with
  | some v => some v
  | none => a k

/-- From `__init__`: `api_headers = {"Authorization": "token %s", "User-Agent": user_agent}`. -/
def apiHeaders (token ua : String) : PyDict :=
  dictSet (dictSet emptyDict "Authorization" ("token " ++ token)) "User-Agent" ua

/-- From `__init__`: copy of `api_headers` plus `Content-Type: application/json`. -/
def apiPostHeaders (token ua : String) : PyDict :=
  dictSet (apiHeaders token ua) "Content-Type" "application/json"

/-- From `__init__`: copy of `api_headers` plus `Content-Type: application/vnd.api+json`. -/
def apiPatchHeaders (token ua : String) : PyDict :=
  dictSet (apiHeaders token ua) "Content-Type" "application/vnd.api+json"

/-- The headers `post` sends: `{**api_post_headers, **headers}`, with
`Content-Type` forced to `application/vnd.api+json` when `use_rest` is set. -/
def postHeaders (token ua : String) (headers : PyDict) (useRest : Bool) : PyDict :=
  let h := dictMerge (apiPostHeaders token ua) headers
  if useRest then dictSet h "Content-Type" "application/vnd.api+json" else h

/-- The headers `put` sends: `{**api_post_headers, **headers}` on both surfaces. -/
def putHeaders (token ua : String) (headers : PyDict) : PyDict :=
  dictMerge (apiPostHeaders token ua) headers

/-- The headers `patch` sends: `{**api_patch_headers, **headers}`. -/
def patchHeaders (token ua : String) (headers : PyDict) : PyDict :=
  dictMerge (apiPatchHeaders token ua) headers

/-- Counterexample to C8: a REST (`use_rest=True`) POST carries
`Content-Type: application/vnd.api+json`, not `application/json` — `post`
overrides the content type after merging when targeting the REST surface. -/
theorem post_rest_content_type_not_json :
    postHeaders "tok" "ua" emptyDict true "Content-Type" = some "application/vnd.api+json" ∧
      postHeaders "tok" "ua" emptyDict true "Content-Type" ≠ some "application/json" := by
  constructor
  · rfl
  · decide

/-- C8 (amended): legacy POST and PUT (either surface) carry
`Content-Type: application/json`; REST POST and PATCH carry
`application/vnd.api+json` (absent a caller override of the header). -/
theorem content_type_policy (token ua : String) (headers : PyDict)
    (hct : headers "Content-Type" = none) :
    postHeaders token ua headers false "Content-Type" = some "application/json" ∧
    postHeaders token ua headers true "Content-Type" = some "application/vnd.api+json" ∧
    putHeaders token ua headers "Content-Type" = some "application/json" ∧
    patchHeaders token ua headers "Content-Type" = some "application/vnd.api+json" := by
  refine ⟨?_, ?_, ?_, ?_⟩ <;>
    simp [postHeaders, putHeaders, patchHeaders, dictMerge, dictSet, apiPostHeaders,
      apiPatchHeaders, apiHeaders, hct]

/-- Witness for `content_type_policy` at concrete credentials and no caller
headers. -/
theorem content_type_policy_witness :
    postHeaders "tok" "ua" emptyDict false "Content-Type" = some "application/json" ∧
    postHeaders "tok" "ua" emptyDict true "Content-Type" = some "application/vnd.api+json" ∧
    putHeaders "tok" "ua" emptyDict "Content-Type" = some "application/json" ∧
    patchHeaders "tok" "ua" emptyDict "Content-Type" = some "application/vnd.api+json" :=
  content_type_policy "tok" "ua" emptyDict rfl

/-! ## Legacy project path rewriting (`SnykClient.delete` /
`SnykClient.__is_v1_project_path`)

Paths are handled character by character here, so they are `List Char`. -/

def isLowerHex (c : Char) : Bool :=
  ('0' ≤ c && c ≤ '9') || ('a' ≤ c && c ≤ 'f')

/-- Position `i` of the 36-character UUID regex
`[0-9a-f]{8}-[0-9a-f]{4}-[4][0-9a-f]{3}-[89ab][0-9a-f]{3}-[0-9a-f]{12}`. -/
def uuidCharOk (i : Nat) (c : Char) : Bool :=
  if i = 8 || i = 13 || i = 18 || i = 23 then c = '-'
  else if i = 14 then c = '4'
  else if i = 19 then c = '8' || c = '9' || c = 'a' || c = 'b'
  else isLowerHex c

/-- A full match of the UUID regex: exactly 36 characters, each in its
position's character class. -/
def isUuid (cs : List Char) : Bool :=
  cs.length = 36 && cs.enum.all fun p => uuidCharOk p.1 p.2

/-- Embedding of `__is_v1_project_path` together with the `re.findall` extraction in
`delete`: an anchored match of `^org/<uuid>/project/<uuid>$` (re's `$` also
matches just before a single trailing newline), yielding the two UUID
segments.  When the anchored pattern matches, `re.findall(uuid_pattern,
path)` finds exactly the two UUID segments (no earlier or overlapping match
exists in `org/…/project/…`), so they are extracted positionally here. -/
def v1ProjectIds (cs : List Char) : Option (List Char × List Char) :=
  if cs.take 4 = "org/".toList then
    let r1 := cs.drop 4
    let u1 := r1.take 36
    let r2 := r1.drop 36
    if isUuid u1 && r2.take 9 = "/project/".toList then
      let u2 := (r2.drop 9).take 36
      let rest := (r2.drop 9).drop 36
      if isUuid u2 && (rest = [] || rest = ['\n']) then some (u1, u2) else none
    else none
  else none

def isV1ProjectPath (cs : List Char) : Bool := (v1ProjectIds cs).isSome

/-- The client configuration that `delete` reads. -/
structure ClientCfg where
  apiUrl : List Char
  restApiUrl : List Char
  version : Option (List Char)

/-- Constant `__latest_version = "2024-06-21"`. -/
def latestVersion : List Char := "2024-06-21".toList

/-- The effective DELETE request: target URL and query parameters. -/
structure DeleteReq where
  url : List Char
  params : List (List Char × List Char)
deriving DecidableEq

/-- Embedding of `SnykClient.delete`: rewrite a legacy `org/<uuid>/project/<uuid>` path to
`orgs/<uuid>/projects/<uuid>` on the REST surface (forcing `use_rest`);
otherwise use the chosen surface unchanged.  REST requests carry the
`version` parameter. -/
def deleteRequest (cfg : ClientCfg) (path : List Char) (useRest : Bool) : DeleteReq :=
  match v1ProjectIds path with
  | some (u1, u2) =>
    let newPath := "orgs/".toList ++ u1 ++ "/projects/".toList ++ u2
    { url := cfg.restApiUrl ++ '/' :: newPath,
      params := [("version".toList, cfg.version.getD latestVersion)] }
  | none =>
    { url := (if useRest then cfg.restApiUrl else cfg.apiUrl) ++ '/' :: path,
      params := if useRest then [("version".toList, cfg.version.getD latestVersion)] else [] }

theorem isUuid_length {cs : List Char} (h : isUuid cs = true) : cs.length = 36 := by
  simp only [isUuid, Bool.and_eq_true, decide_eq_true_eq] at h
  exact h.1

theorem v1ProjectIds_exact (u1 u2 : List Char) (h1 : isUuid u1 = true)
    (h2 : isUuid u2 = true) :
    v1ProjectIds ("org/".toList ++ u1 ++ "/project/".toList ++ u2) = some (u1, u2) := by
  have hl1 := isUuid_length h1
  have hl2 := isUuid_length h2
  have hassoc : "org/".toList ++ u1 ++ "/project/".toList ++ u2 =
      "org/".toList ++ (u1 ++ ("/project/".toList ++ u2)) := by
    simp [List.append_assoc]
  rw [hassoc]
  unfold v1ProjectIds
  simp only [List.take_left' (show ("org/".toList : List Char).length = 4 from rfl),
    List.drop_left' (show ("org/".toList : List Char).length = 4 from rfl),
    List.take_left' hl1, List.drop_left' hl1,
    List.take_left' (show ("/project/".toList : List Char).length = 9 from rfl),
    List.drop_left' (show ("/project/".toList : List Char).length = 9 from rfl),
    List.take_of_length_le (show u2.length ≤ 36 by omega),
    List.drop_eq_nil_of_le (show u2.length ≤ 36 by omega)]
  simp [h1, h2]

/-- C4: a path of the exact form `org/<uuid>/project/<uuid>` given to
`delete` is rewritten to `orgs/<uuid>/projects/<uuid>` against the REST base
URL with a `version` parameter, and a path that does not match the pattern is
not rewritten. -/
theorem delete_v1_path_rewrite (cfg : ClientCfg) (u1 u2 : List Char) (useRest : Bool)
    (h1 : isUuid u1 = true) (h2 : isUuid u2 = true) :
    (deleteRequest cfg ("org/".toList ++ u1 ++ "/project/".toList ++ u2) useRest =
      { url := cfg.restApiUrl ++ '/' :: ("orgs/".toList ++ u1 ++ "/projects/".toList ++ u2),
        params := [("version".toList, cfg.version.getD latestVersion)] }) ∧
    (∀ path : List Char, isV1ProjectPath path = false →
      deleteRequest cfg path useRest =
        { url := (if useRest then cfg.restApiUrl else cfg.apiUrl) ++ '/' :: path,
          params :=
            if useRest then [("version".toList, cfg.version.getD latestVersion)] else [] }) := by
  constructor
  · unfold deleteRequest
    rw [v1ProjectIds_exact u1 u2 h1 h2]
  · intro path hpath
    have hnone : v1ProjectIds path = none := by
      cases h : v1ProjectIds path with
      | none => rfl
      | some v => simp [isV1ProjectPath, h] at hpath
    unfold deleteRequest
    rw [hnone]

/-- Witness for `delete_v1_path_rewrite` at the spec's example UUIDs. -/
theorem delete_v1_path_rewrite_witness :
    (deleteRequest ⟨"https://api.snyk.io/v1".toList, "https://api.snyk.io/rest".toList, none⟩
      ("org/".toList ++ "11111111-1111-4111-8111-111111111111".toList ++
        "/project/".toList ++ "22222222-2222-4222-8222-222222222222".toList) false =
      { url := "https://api.snyk.io/rest".toList ++ '/' ::
          ("orgs/".toList ++ "11111111-1111-4111-8111-111111111111".toList ++
            "/projects/".toList ++ "22222222-2222-4222-8222-222222222222".toList),
        params := [("version".toList, latestVersion)] }) ∧
    (∀ path : List Char, isV1ProjectPath path = false →
      deleteRequest ⟨"https://api.snyk.io/v1".toList, "https://api.snyk.io/rest".toList, none⟩
          path false =
        { url := "https://api.snyk.io/v1".toList ++ '/' :: path, params := [] }) :=
  delete_v1_path_rewrite _ _ _ false (by decide) (by decide)

/-! ## GET query parameter handling (`SnykClient.get`, lines 219–255) -/

/-- A query parameter value as `get` can receive it: string, integer or
boolean. -/
inductive PVal where
  | pstr (s : String)
  | pint (n : Int)
  | pbool (b : Bool)
deriving DecidableEq

/-- Python `str(v).lower()` for a Python bool (`str(True) = "True"`). -/
def pyLowerBool (b : Bool) : String := if b then "true" else "false"

/-- Body of the `for k, v in params.items()` loop: booleans become lowercase
string literals, every other value passes through unchanged. -/
def normParamValue (v : PVal) : PVal :=
  match v with
  | .pbool b => .pstr (pyLowerBool b)
  | v => v

/-- Modelled from the spec: `cleanup_path` lives in `snyk/utils.py`, which is
not among the sources; the spec says it "cleans a caller-supplied path (e.g.,
strips leading slash) before concatenation with a base URL". -/
def cleanupPath (p : String) : String :=
  match p.toList with
  | '/' :: rest => String.mk rest
  | _ => p

/-- Python `str.split(sep)` for a one-character separator. -/
def splitOnChar (sep : Char) : List Char → List (List Char)
  | [] => [[]]
  | c :: rest =>
    if c = sep then [] :: splitOnChar sep rest
    else
      match splitOnChar sep rest with
      | [] => [[c]]
      | g :: gs => (c :: g) :: gs

/-- Python `urlparse(path).query`: the part after the first `?`, with any `#`
fragment stripped first. -/
def pyUrlQuery (path : List Char) : List Char :=
  let noFrag := (splitOnChar '#' path).headD []
  match splitOnChar '?' noFrag with
  | [] => []
  | [_] => []
  | _ :: rest => List.intercalate ['?'] rest

/-- Python `"limit" in parse_qs(query)`: some `&`-separated field has key `limit`
and a non-empty value (`parse_qs` drops blank values by default, and splits
each field at its first `=`). -/
def parseQsHasLimit (q : List Char) : Bool :=
  (splitOnChar '&' q).any fun seg =>
    match splitOnChar '=' seg with
    | [] => false
    | [_] => false
    | k :: rest => k = "limit".toList && List.intercalate ['='] rest ≠ []

/-- Line 236: inject `params["version"] = version or self.version` when the
key is absent, the client has a version, and version exclusion is off. -/
def getParamsStep1 (clientVersion version : Option String) (excludeVersion : Bool)
    (ps : List (String × PVal)) : List (String × PVal) :=
  if (ps.lookup "version").isNone && clientVersion.isSome && !excludeVersion then
    ps ++ [("version", .pstr ((version.orElse fun _ => clientVersion).getD ""))]
  else ps

/-- Lines 242–244: lowercase every boolean value in place. -/
def getParamsStep2 (ps : List (String × PVal)) : List (String × PVal) :=
  ps.map fun p => (p.1, normParamValue p.2)

/-- Lines 246–249: drop a caller-supplied `limit` parameter when the path
already embeds one in its query string. -/
def getParamsStep3 (path : String) (ps : List (String × PVal)) : List (String × PVal) :=
  if parseQsHasLimit (pyUrlQuery path.toList) then ps.filter (fun p => p.1 ≠ "limit") else ps

/-- Python truthiness of the `params` argument (`None` and `{}` are falsy). -/
def paramsTruthy (params0 : Option (List (String × PVal))) : Bool :=
  match params0 with
  | none => false
  | some l => !l.isEmpty

/-- The params dict `get` actually sends (`none` when the no-params branch is
taken): the pipeline guarded by `if (params or self.version) and not
exclude_params`. -/
def getSentParams (clientVersion : Option String) (path0 : String)
    (params0 : Option (List (String × PVal))) (version : Option String)
    (excludeVersion excludeParams : Bool) : Option (List (String × PVal)) :=
  if (paramsTruthy params0 || clientVersion.isSome) && !excludeParams then
    some (getParamsStep3 (cleanupPath path0) (getParamsStep2
      (getParamsStep1 clientVersion version excludeVersion (params0.getD []))))
  else none

/-- The request `get` issues: target URL and the params dict actually sent. -/
structure GetRequestView where
  url : String
  params : Option (List (String × PVal))
deriving DecidableEq

/-- Embedding of `SnykClient.get`, lines 219–255: path cleanup, URL selection, and the
parameter pipeline. -/
def getRequest (apiUrl restApiUrl : String) (clientVersion : Option String) (path0 : String)
    (params0 : Option (List (String × PVal))) (version : Option String)
    (excludeVersion excludeParams : Bool) : GetRequestView :=
  let path := cleanupPath path0
  let url :=
    match version with
    | some v =>
      if excludeVersion then restApiUrl ++ "/" ++ path
      else restApiUrl ++ "/" ++ path ++ "?version=" ++ v
    | none => apiUrl ++ "/" ++ path
  { url := url,
    params := getSentParams clientVersion path0 params0 version excludeVersion excludeParams }

theorem getParamsStep2_no_bool (ps : List (String × PVal)) :
    ∀ p ∈ getParamsStep2 ps, ∀ b : Bool, p.2 ≠ .pbool b := by
  intro p hp b
  obtain ⟨q, _, rfl⟩ := List.mem_map.mp hp
  cases q.2 <;> simp [normParamValue]

theorem getParamsStep3_subset (path : String) (ps : List (String × PVal)) :
    ∀ p ∈ getParamsStep3 path ps, p ∈ ps := by
  intro p hp
  unfold getParamsStep3 at hp
  split at hp
  · exact List.mem_of_mem_filter hp
  · exact hp

/-- C6: whenever `get` sends query parameters, no boolean value survives in
them, and every caller-supplied boolean (not dropped by the duplicate-`limit`
rule) is sent as the lowercase string `"true"`/`"false"`. -/
theorem get_bool_params_lowercase (apiUrl restApiUrl : String) (clientVersion : Option String)
    (path0 : String) (params0 : Option (List (String × PVal))) (version : Option String)
    (excludeVersion excludeParams : Bool) (sent : List (String × PVal))
    (hsent : (getRequest apiUrl restApiUrl clientVersion path0 params0 version
      excludeVersion excludeParams).params = some sent) :
    (∀ p ∈ sent, ∀ b : Bool, p.2 ≠ .pbool b) ∧
    (∀ (k : String) (b : Bool), (k, PVal.pbool b) ∈ params0.getD [] →
      (parseQsHasLimit (pyUrlQuery (cleanupPath path0).toList) = true → k ≠ "limit") →
      (k, PVal.pstr (pyLowerBool b)) ∈ sent) := by
  have hsent' : (if ((paramsTruthy params0 || clientVersion.isSome) && !excludeParams) = true then
      some (getParamsStep3 (cleanupPath path0) (getParamsStep2
        (getParamsStep1 clientVersion version excludeVersion (params0.getD []))))
    else none) = some sent := hsent
  cases hc : (paramsTruthy params0 || clientVersion.isSome) && !excludeParams with
  | false => rw [hc] at hsent'; simp at hsent'
  | true =>
    rw [hc] at hsent'
    simp only [if_true, Option.some.injEq] at hsent'
    subst hsent'
    constructor
    · intro p hp b
      exact getParamsStep2_no_bool _ p (getParamsStep3_subset _ _ p hp) b
    · intro k b hmem hlim
      have h1 : (k, PVal.pbool b) ∈
          getParamsStep1 clientVersion version excludeVersion (params0.getD []) := by
        unfold getParamsStep1
        split
        · exact List.mem_append_left _ hmem
        · exact hmem
      have h2 : (k, PVal.pstr (pyLowerBool b)) ∈ getParamsStep2
          (getParamsStep1 clientVersion version excludeVersion (params0.getD [])) :=
        List.mem_map.mpr ⟨(k, PVal.pbool b), h1, rfl⟩
      unfold getParamsStep3
      split
      case isTrue hq => exact List.mem_filter.mpr ⟨h2, by simp [hlim hq]⟩
      case isFalse => exact h2

/-- Witness for `get_bool_params_lowercase`: a starred-filter boolean is sent
as `"true"` and an integer parameter keeps its non-boolean value. -/
theorem get_bool_params_lowercase_witness :
    ("starred", PVal.pstr "true") ∈
        ([("starred", PVal.pstr "true"), ("limit", PVal.pint 10),
          ("version", PVal.pstr "2024-06-21")] : List (String × PVal)) ∧
      (("limit", PVal.pint 10) : String × PVal).2 ≠ PVal.pbool true :=
  ⟨(get_bool_params_lowercase "https://api.snyk.io/v1" "https://api.snyk.io/rest"
      (some "2024-06-21") "projects" (some [("starred", .pbool true), ("limit", .pint 10)])
      none false false
      [("starred", PVal.pstr "true"), ("limit", PVal.pint 10),
        ("version", PVal.pstr "2024-06-21")] rfl).2 "starred" true (by decide)
      (fun _ => by decide),
    (get_bool_params_lowercase "https://api.snyk.io/v1" "https://api.snyk.io/rest"
      (some "2024-06-21") "projects" (some [("starred", .pbool true), ("limit", .pint 10)])
      none false false
      [("starred", PVal.pstr "true"), ("limit", PVal.pint 10),
        ("version", PVal.pstr "2024-06-21")] rfl).1 ("limit", .pint 10) (by decide) true⟩

/-! ## Project listing tag validation (`ProjectManager._query`, lines 213–239) -/

/-- A tag dict, as an association list; Python dicts have distinct keys, so
theorems assume `(t.map Prod.fst).Nodup`. -/
abbrev Tag := List (String × String)

/-- Line 223: `"key" not in tag or "value" not in tag or len(tag.keys()) != 2`. -/
def tagInvalid (t : Tag) : Bool :=
  (t.lookup "key").isNone || (t.lookup "value").isNone || t.length ≠ 2

/-- Line 225: `f'{d["key"]}:{d["value"]}'` — only evaluated on validated
tags, where both lookups succeed, so the defaults are never used. -/
def serializeTag (t : Tag) : String :=
  ((t.lookup "key").getD "") ++ ":" ++ ((t.lookup "value").getD "")

inductive QueryOutcome where
  | snykError (msg : String)
  | request (path : String) (params : List (String × PVal))
deriving DecidableEq

/-- Lines 230–232: the meta/expand parameters appended after the tag filter. -/
def projectsMetaParams : List (String × PVal) :=
  [("meta.latest_issue_counts", .pstr "true"),
    ("meta.latest_dependency_total", .pstr "true"),
    ("expand", .pstr "target")]

/-- Embedding of `ProjectManager._query` under an organization instance, first page
(`next_url=None`): start from `{"limit": 100}`, validate the tag filter
(raising `SnykError` before any request is issued when a tag is malformed),
serialize it as comma-joined `key:value` tokens, append the meta/expand
parameters, and issue the GET. -/
def projectQueryRequest (orgId : String) (tags : List Tag) : QueryOutcome :=
  let path := "/orgs/" ++ orgId ++ "/projects"
  if tags.isEmpty then
    .request path ([("limit", .pint 100)] ++ projectsMetaParams)
  else if tags.any tagInvalid then
    .snykError "Each tag must contain only a key and a value"
  else
    .request path ([("limit", .pint 100)] ++
      [("tags", .pstr (String.intercalate "," (tags.map serializeTag)))] ++
      projectsMetaParams)

theorem lookup_isSome_mem {V : Type} {t : List (String × V)} {k : String}
    (h : (t.lookup k).isSome = true) : k ∈ t.map Prod.fst := by
  induction t with
  | nil => simp [List.lookup] at h
  | cons a rest ih =>
    obtain ⟨k', v'⟩ := a
    simp only [List.lookup] at h
    by_cases hk : k = k'
    · simp [hk]
    · have hbeq : (k == k') = false := by simp [hk]
      rw [hbeq] at h
      simp [ih h]

theorem two_distinct_length {l : List String} {a b : String} (ha : a ∈ l) (hb : b ∈ l)
    (hab : a ≠ b) : 2 ≤ l.length := by
  have hsub : ({a, b} : Finset String) ⊆ l.toFinset := by
    intro x hx
    rcases Finset.mem_insert.mp hx with rfl | hx
    · exact List.mem_toFinset.mpr ha
    · rw [Finset.mem_singleton] at hx
      subst hx
      exact List.mem_toFinset.mpr hb
  have hcard : ({a, b} : Finset String).card = 2 := by
    rw [Finset.card_insert_of_not_mem (by simp [hab]), Finset.card_singleton]
  calc 2 = ({a, b} : Finset String).card := hcard.symm
    _ ≤ l.toFinset.card := Finset.card_le_card hsub
    _ ≤ l.length := List.toFinset_card_le l

theorem three_distinct_length {l : List String} (hnd : l.Nodup) {a b c : String}
    (ha : a ∈ l) (hb : b ∈ l) (hc : c ∈ l) (hab : a ≠ b) (hac : a ≠ c) (hbc : b ≠ c) :
    3 ≤ l.length := by
  have hsub : ({a, b, c} : Finset String) ⊆ l.toFinset := by
    intro x hx
    rcases Finset.mem_insert.mp hx with rfl | hx
    · exact List.mem_toFinset.mpr ha
    · rcases Finset.mem_insert.mp hx with rfl | hx
      · exact List.mem_toFinset.mpr hb
      · rw [Finset.mem_singleton] at hx
        subst hx
        exact List.mem_toFinset.mpr hc
  have hcard : ({a, b, c} : Finset String).card = 3 := by
    rw [Finset.card_insert_of_not_mem (by simp [hab, hac]),
      Finset.card_insert_of_not_mem (by simp [hbc]), Finset.card_singleton]
  calc 3 = ({a, b, c} : Finset String).card := hcard.symm
    _ ≤ l.toFinset.card := Finset.card_le_card hsub
    _ ≤ l.length := List.toFinset_card_le l

theorem subset_pair_length {l : List String} (hnd : l.Nodup) {a b : String}
    (h : ∀ x ∈ l, x = a ∨ x = b) : l.length ≤ 2 := by
  have hsub : l.toFinset ⊆ ({a, b} : Finset String) := by
    intro x hx
    rcases h x (List.mem_toFinset.mp hx) with rfl | rfl <;> simp
  calc l.length = l.toFinset.card := (List.toFinset_card_of_nodup hnd).symm
    _ ≤ ({a, b} : Finset String).card := Finset.card_le_card hsub
    _ ≤ 2 := le_trans (Finset.card_insert_le a {b}) (by simp)

/-- The code's test (`len(tag.keys()) != 2` with key/value presence) agrees
with the claim's field-level reading on genuine dicts (nodup keys). -/
theorem tagInvalid_iff {t : Tag} (hnd : (t.map Prod.fst).Nodup) :
    tagInvalid t = true ↔ (t.lookup "key" = none ∨ t.lookup "value" = none ∨
      ∃ p ∈ t, p.1 ≠ "key" ∧ p.1 ≠ "value") := by
  constructor
  · intro h
    simp only [tagInvalid, Bool.or_eq_true, Option.isNone_iff_eq_none,
      decide_eq_true_eq] at h
    rcases h with (h | h) | h
    · exact Or.inl h
    · exact Or.inr (Or.inl h)
    · by_cases hk : t.lookup "key" = none
      · exact Or.inl hk
      by_cases hv : t.lookup "value" = none
      · exact Or.inr (Or.inl hv)
      refine Or.inr (Or.inr ?_)
      by_contra hno
      push_neg at hno
      have hmemk : "key" ∈ t.map Prod.fst :=
        lookup_isSome_mem (Option.isSome_iff_ne_none.mpr hk)
      have hmemv : "value" ∈ t.map Prod.fst :=
        lookup_isSome_mem (Option.isSome_iff_ne_none.mpr hv)
      have h2 : 2 ≤ (t.map Prod.fst).length :=
        two_distinct_length hmemk hmemv (by decide)
      have hpair : ∀ x ∈ t.map Prod.fst, x = "key" ∨ x = "value" := by
        intro x hx
        obtain ⟨p, hp, rfl⟩ := List.mem_map.mp hx
        by_cases hxk : p.1 = "key"
        · exact Or.inl hxk
        · exact Or.inr (hno p hp hxk)
      have hle : (t.map Prod.fst).length ≤ 2 := subset_pair_length hnd hpair
      rw [List.length_map] at h2 hle
      omega
  · intro h
    rcases h with h | h | h
    · simp [tagInvalid, h]
    · simp [tagInvalid, h]
    · obtain ⟨p, hp, hk, hv⟩ := h
      by_cases hk' : t.lookup "key" = none
      · simp [tagInvalid, hk']
      by_cases hv' : t.lookup "value" = none
      · simp [tagInvalid, hv']
      have hmemk : "key" ∈ t.map Prod.fst :=
        lookup_isSome_mem (Option.isSome_iff_ne_none.mpr hk')
      have hmemv : "value" ∈ t.map Prod.fst :=
        lookup_isSome_mem (Option.isSome_iff_ne_none.mpr hv')
      have hmemp : p.1 ∈ t.map Prod.fst := List.mem_map_of_mem Prod.fst hp
      have h3 : 3 ≤ (t.map Prod.fst).length :=
        three_distinct_length hnd hmemk hmemv hmemp (by decide)
          (fun he => hk he.symm) (fun he => hv he.symm)
      rw [List.length_map] at h3
      simp [tagInvalid, show t.length ≠ 2 by omega]

/-- C5: with a non-empty tag filter, a tag missing the `key` field, missing
the `value` field, or carrying any other field makes the listing raise
`SnykError` before any request is built; with all tags valid, the request
carries the comma-joined `key:value` serialization in its `tags` parameter. -/
theorem project_query_tag_validation (orgId : String) (tags : List Tag)
    (htags : tags ≠ []) (hnd : ∀ t ∈ tags, (t.map Prod.fst).Nodup) :
    ((∃ t ∈ tags, t.lookup "key" = none ∨ t.lookup "value" = none ∨
        ∃ p ∈ t, p.1 ≠ "key" ∧ p.1 ≠ "value") →
      projectQueryRequest orgId tags =
        .snykError "Each tag must contain only a key and a value") ∧
    ((∀ t ∈ tags, (t.lookup "key").isSome ∧ (t.lookup "value").isSome ∧
        ∀ p ∈ t, p.1 = "key" ∨ p.1 = "value") →
      projectQueryRequest orgId tags =
        .request ("/orgs/" ++ orgId ++ "/projects")
          ([("limit", .pint 100)] ++
            [("tags", .pstr (String.intercalate "," (tags.map serializeTag)))] ++
            projectsMetaParams)) := by
  have hne : tags.isEmpty = false := by
    cases tags with
    | nil => exact absurd rfl htags
    | cons a l => rfl
  constructor
  · intro hex
    have hany : tags.any tagInvalid = true := by
      rw [List.any_eq_true]
      obtain ⟨t, ht, hinv⟩ := hex
      exact ⟨t, ht, (tagInvalid_iff (hnd t ht)).mpr hinv⟩
    simp [projectQueryRequest, hne, hany]
  · intro hval
    have hany : tags.any tagInvalid = false := by
      rw [List.any_eq_false]
      intro t ht
      rcases hval t ht with ⟨h1, h2, h3⟩
      intro hti
      rcases (tagInvalid_iff (hnd t ht)).mp hti with h | h | ⟨p, hp, hk, hv⟩
      · rw [h] at h1; simp at h1
      · rw [h] at h2; simp at h2
      · rcases h3 p hp with h | h
        · exact hk h
        · exact hv h
    simp [projectQueryRequest, hne, hany]

/-- Witness for `project_query_tag_validation`: a tag missing `value` is
rejected before any request; a `{key: env, value: prod}` tag is serialized as
`env:prod`. -/
theorem project_query_tag_validation_witness :
    projectQueryRequest "o1" [[("key", "env")]] =
        .snykError "Each tag must contain only a key and a value" ∧
      projectQueryRequest "o1" [[("key", "env"), ("value", "prod")]] =
        .request "/orgs/o1/projects"
          ([("limit", .pint 100)] ++ [("tags", .pstr "env:prod")] ++ projectsMetaParams) :=
  ⟨(project_query_tag_validation "o1" [[("key", "env")]] (by decide) (by decide)).1
      ⟨[("key", "env")], by decide, Or.inr (Or.inl rfl)⟩,
    (project_query_tag_validation "o1" [[("key", "env"), ("value", "prod")]]
      (by decide) (by decide)).2 (by decide)⟩

/-! ## Mapping-shaped managers (`DictManager`, `managers.py` lines 73–91) -/

inductive ManagerError where
  | notFound
  | notImplemented
deriving DecidableEq

/-- Embedding of `DictManager.get`: `self.all()[id]`, with `KeyError` surfaced as
`SnykNotFoundError`. -/
def dictManagerGet {V : Type} (allResult : List (String × V)) (id : String) :
    Except ManagerError V :=
  match allResult.lookup id with
  | some v => .ok v
  | none => .error .notFound

/-- Embedding of `DictManager.filter`: unconditionally raises `SnykNotImplementedError`. -/
def dictManagerFilter {V : Type} (allResult : List (String × V)) :
    Except ManagerError (List (String × V)) :=
  .error .notImplemented

/-- Embedding of `DictManager.first`: `next(iter(self.all().items()))`, with
`StopIteration` surfaced as `SnykNotFoundError`. -/
def dictManagerFirst {V : Type} (allResult : List (String × V)) :
    Except ManagerError (String × V) :=
  match allResult with
  | [] => .error .notFound
  | p :: _ => .ok p

/-- Embedding of `EntitlementManager.all`: GET `org/<id>/entitlements` and return the raw
JSON mapping unchanged. -/
def entitlementsAll {V : Type} (fetch : String → List (String × V)) (orgId : String) :
    List (String × V) :=
  fetch ("org/" ++ orgId ++ "/entitlements")

/-- Counterexample to C7: on a mapping-shaped strategy, `get` does not signal
a not-implemented error — it returns the raw value stored under the id — and
`first` returns the first key-value pair; only `filter` is unsupported. -/
theorem dictManager_get_first_implemented :
    dictManagerGet [("a", (1 : Int))] "a" = .ok 1 ∧
      dictManagerGet [("a", (1 : Int))] "a" ≠ .error .notImplemented ∧
      dictManagerFirst [("a", (1 : Int))] = .ok ("a", 1) ∧
      dictManagerFirst [("a", (1 : Int))] ≠ .error .notImplemented :=
  ⟨rfl, fun h => by simp [dictManagerGet] at h, rfl,
    fun h => by simp [dictManagerFirst] at h⟩

/-- C7 (amended): for mapping-shaped strategies (entitlements, ignores,
settings, Jira issues), `all()` returns the raw key-value mapping and
`filter` signals a not-implemented error; but `get` returns the mapping
entry at the id (not-found when absent) and `first` returns the first
key-value pair (not-found when the mapping is empty). -/
theorem dictManager_operations {V : Type} (fetch : String → List (String × V))
    (orgId id : String) :
    dictManagerFilter (entitlementsAll fetch orgId) = .error .notImplemented ∧
    (∀ v, (entitlementsAll fetch orgId).lookup id = some v →
      dictManagerGet (entitlementsAll fetch orgId) id = .ok v) ∧
    ((entitlementsAll fetch orgId).lookup id = none →
      dictManagerGet (entitlementsAll fetch orgId) id = .error .notFound) ∧
    (entitlementsAll fetch orgId = [] →
      dictManagerFirst (entitlementsAll fetch orgId) = .error .notFound) ∧
    (∀ p rest, entitlementsAll fetch orgId = p :: rest →
      dictManagerFirst (entitlementsAll fetch orgId) = .ok p) := by
  refine ⟨rfl, ?_, ?_, ?_, ?_⟩
  · intro v h; simp [dictManagerGet, h]
  · intro h; simp [dictManagerGet, h]
  · intro h; simp [dictManagerFirst, h]
  · intro p rest h; simp [dictManagerFirst, h]

/-- Witness for `dictManager_operations` on a concrete entitlements mapping. -/
theorem dictManager_operations_witness :
    dictManagerFilter (entitlementsAll (fun _ => [("reports", true)]) "o1")
        = .error .notImplemented ∧
      dictManagerGet (entitlementsAll (fun _ => [("reports", true)]) "o1") "reports"
        = .ok true ∧
      dictManagerFirst (entitlementsAll (fun _ => [("reports", true)]) "o1")
        = .ok ("reports", true) :=
  ⟨(dictManager_operations (fun _ => [("reports", true)]) "o1" "reports").1,
    (dictManager_operations (fun _ => [("reports", true)]) "o1" "reports").2.1 true rfl,
    (dictManager_operations (fun _ => [("reports", true)]) "o1" "reports").2.2.2.2
      ("reports", true) [] rfl⟩

end Pysnyk
